import Mathlib

/-!
Verification of the mastermind code-breaker core (src/main.rs):
digit/code codec, the duplicate-aware feedback scorer `check`, and the
candidate-elimination engine `break_code`.

Machine integers (`u8`, `u32`) are modelled as `Nat`: every arithmetic
operation in the source stays far below the respective bounds
(numerals are at most 999999 < 2^32, scores are at most 6 < 2^8),
so no wraparound can occur and the `Nat` model is exact.
-/

/-- The ten digit symbols, in the declaration order of the Rust `enum Digit`. -/
inductive Digit where
  | One
  | Two
  | Three
  | Four
  | Five
  | Six
  | Seven
  | Eight
  | Nine
  | Zero
deriving DecidableEq, Repr, Fintype

/-- `impl From<Digit> for u8`. -/
def Digit.toU8 : Digit → Nat
  | .One => 1
  | .Two => 2
  | .Three => 3
  | .Four => 4
  | .Five => 5
  | .Six => 6
  | .Seven => 7
  | .Eight => 8
  | .Nine => 9
  | .Zero => 0

/-- `impl TryFrom<u8> for Digit`; `none` models the `Err(())` branch. -/
def Digit.tryFromU8 (d : Nat) : Option Digit :=
  match d with
  | 1 => some .One
  | 2 => some .Two
  | 3 => some .Three
  | 4 => some .Four
  | 5 => some .Five
  | 6 => some .Six
  | 7 => some .Seven
  | 8 => some .Eight
  | 9 => some .Nine
  | 0 => some .Zero
  | _ => none

/-- `struct Code([Digit; 6])`: an ordered sequence of exactly six digits. -/
structure Code where
  d0 : Digit
  d1 : Digit
  d2 : Digit
  d3 : Digit
  d4 : Digit
  d5 : Digit
deriving DecidableEq, Repr

/-- Positional access into the six-slot array (`code.0[i]`). -/
def Code.get (c : Code) : Fin 6 → Digit
  | ⟨0, _⟩ => c.d0
  | ⟨1, _⟩ => c.d1
  | ⟨2, _⟩ => c.d2
  | ⟨3, _⟩ => c.d3
  | ⟨4, _⟩ => c.d4
  | ⟨5, _⟩ => c.d5

/-- `impl From<Code> for u32`: the reversed array is enumerated and the digit
at reversed index `i` is weighted by `10^i`, so the first slot is most
significant. -/
def Code.toNumeral (c : Code) : Nat :=
  Digit.toU8 c.d5 * 1 + Digit.toU8 c.d4 * 10 + Digit.toU8 c.d3 * 100 +
    Digit.toU8 c.d2 * 1000 + Digit.toU8 c.d1 * 10000 + Digit.toU8 c.d0 * 100000

/-- `impl From<u32> for Code`, before the `.unwrap()`: for `i` in `(0..6).rev()`
the digit is `Digit::try_from((c / 10^i) % 10)`.  The `Option` records the
fallibility of each `try_from`. -/
def Code.fromNumeral (n : Nat) : Option Code := do
  let d0 ← Digit.tryFromU8 (n / 100000 % 10)
  let d1 ← Digit.tryFromU8 (n / 10000 % 10)
  let d2 ← Digit.tryFromU8 (n / 1000 % 10)
  let d3 ← Digit.tryFromU8 (n / 100 % 10)
  let d4 ← Digit.tryFromU8 (n / 10 % 10)
  let d5 ← Digit.tryFromU8 (n / 1 % 10)
  some ⟨d0, d1, d2, d3, d4, d5⟩

/-- `impl From<u32> for Code` with the source's `.unwrap()`: the default is
never reached, see `fromNumeral_eq_some`. -/
def Code.ofNumeral (n : Nat) : Code :=
  (Code.fromNumeral n).getD ⟨.Zero, .Zero, .Zero, .Zero, .Zero, .Zero⟩

/-- `pub fn check(code: Code, guess: Code) -> (u8, u8)`, translated clause by
clause: the fold runs over the enumerated guess positions; the first inner
iterator is `code.0.iter().enumerate().filter(...).take(1).count()`, the
second is `guess.0.iter().take(i).filter(...).count()`, and the two counts
are compared after casting to `isize` (here `Int`). -/
def check (code guess : Code) : Nat × Nat :=
  (List.finRange 6).foldl
    (fun p i =>
      let g := guess.get i
      if g = code.get i then
        (p.1 + 1, p.2)
      else if ((((List.finRange 6).filter fun j =>
              decide (g = code.get j ∧ guess.get j ≠ code.get j)).take 1).length : Int)
            - (((List.finRange 6).filter fun j =>
              decide (j < i ∧ guess.get j = g ∧ ∃ k, g = code.get k)).length : Int)
            > 0 then
        (p.1, p.2 + 1)
      else
        (p.1, p.2))
    (0, 0)

/-- The per-position miss predicate implemented by `check`, read off from the
source: position `i` of the guess is credited a miss exactly when it is not an
exact match, the (at most one, because of `take(1)`) counted secret occurrence
of the guessed digit at a non-exact position exists, and no earlier guess
position holds the same digit value while that value occurs in the secret. -/
def missCondition (code guess : Code) (i : Fin 6) : Prop :=
  guess.get i ≠ code.get i ∧
    (∃ j, guess.get i = code.get j ∧ guess.get j ≠ code.get j) ∧
    ¬∃ j, j < i ∧ guess.get j = guess.get i ∧ ∃ k, guess.get i = code.get k

instance (code guess : Code) (i : Fin 6) : Decidable (missCondition code guess i) := by
  unfold missCondition
  infer_instance

/-- Simplification of `missCondition`: whenever the guessed digit has a
non-exact occurrence in the secret it certainly occurs in the secret, so the
trailing occurrence test on the blocking clause is redundant. -/
def missCredit (code guess : Code) (i : Fin 6) : Prop :=
  guess.get i ≠ code.get i ∧
    (∃ j, guess.get i = code.get j ∧ guess.get j ≠ code.get j) ∧
    ∀ j, j < i → guess.get j ≠ guess.get i

instance (code guess : Code) (i : Fin 6) : Decidable (missCredit code guess i) := by
  unfold missCredit
  infer_instance

/-- Modelled from the spec (section 4.2), for comparison with `check`: scan
the guess left to right; a non-exact position with digit `g` is credited a
miss when the number of secret occurrences of `g` at positions where the guess
differs from the secret exceeds the number of earlier guess positions already
credited a miss for the same digit value (the accumulated list `credited`). -/
def checkSpec (code guess : Code) : Nat × Nat :=
  let r := (List.finRange 6).foldl
    (fun (st : Nat × Nat × List Digit) i =>
      let g := guess.get i
      if g = code.get i then
        (st.1 + 1, st.2.1, st.2.2)
      else if ((((List.finRange 6).filter fun j =>
              decide (g = code.get j ∧ guess.get j ≠ code.get j)).length : Int)
            - (st.2.2.count g : Int)) > 0 then
        (st.1, st.2.1 + 1, g :: st.2.2)
      else
        st)
    (0, 0, [])
  (r.1, r.2.1)

/-- A code has six pairwise-distinct digits when positional access is
injective. -/
def Code.distinct (c : Code) : Prop :=
  ∀ i j : Fin 6, c.get i = c.get j → i = j

instance (c : Code) : Decidable c.distinct := by
  unfold Code.distinct
  infer_instance

/-- The number of distinct digit values appearing in a code. -/
def Code.distinctValueCount (c : Code) : Nat :=
  (Finset.univ.image c.get).card

/-- The misses of `check σ-as-secret, τ-as-guess` when the guess `τ` has no
duplicate digits. -/
def missSet (σ τ : Fin 6 → Digit) : Finset (Fin 6) :=
  Finset.univ.filter fun i => τ i ≠ σ i ∧ ∃ j, τ i = σ j ∧ τ j ≠ σ j

/-- One filtering round of `break_code`: keep the candidates `g` whose score
`check(g, guess)` equals the oracle response. -/
def filterRound (guesses : List Code) (guess : Code) (resp : Nat × Nat) : List Code :=
  guesses.filter fun g => decide (check g guess = resp)

/-- The initial candidate set of `break_code`: `(0..=999999).map(Code::from)`. -/
def allCodes : List Code :=
  (List.range 1000000).map Code.ofNumeral

/-- The `while guesses.len() > 1` loop of `break_code`.  The guess selection
of the source is the fixed opener (numeral 111222) on the first round and a
randomized minimax sample afterwards; the randomized choice is abstracted as
the strategy parameter `select` (its only property used by the source is that
it returns one of the remaining candidates).  The fuel argument bounds the
number of iterations; it never runs out when `select` picks candidates, since
the candidate set shrinks every round (`breakCodeLoop_total`). -/
def breakCodeLoop (good : Code → Nat × Nat)
    (select : List Code → List (Code × (Nat × Nat)) → Code) :
    Nat → List Code → List (Code × (Nat × Nat)) → Option (List Code)
  | 0, _, _ => none
  | fuel + 1, guesses, prev =>
    if guesses.length ≤ 1 then
      some guesses
    else
      let guess := if prev.isEmpty then Code.ofNumeral 111222 else select guesses prev
      let resp := good guess
      breakCodeLoop good select fuel (filterRound guesses guess resp) ((guess, resp) :: prev)

/-- `pub fn break_code(good) -> Option<Code>`: run the elimination loop from
the full candidate set and return the head of the surviving set
(`guesses.iter().next().map(|&x| x)`). -/
def breakCode (good : Code → Nat × Nat)
    (select : List Code → List (Code × (Nat × Nat)) → Code) : Option Code :=
  (breakCodeLoop good select 1000001 allCodes []).bind List.head?

/-! ### Digit codec lemmas -/

lemma Digit.toU8_lt_ten (d : Digit) : Digit.toU8 d < 10 := by
  cases d <;> decide

lemma Digit.tryFromU8_toU8 (d : Digit) : Digit.tryFromU8 (Digit.toU8 d) = some d := by
  cases d <;> rfl

lemma Digit.toU8_inj : ∀ a b : Digit, Digit.toU8 a = Digit.toU8 b → a = b := by
  decide

lemma Digit.map_toU8_tryFromU8 (v : Nat) (h : v < 10) :
    Option.map Digit.toU8 (Digit.tryFromU8 v) = some v := by
  interval_cases v <;> rfl

lemma Digit.tryFromU8_eq_none (v : Nat) (h : 9 < v) : Digit.tryFromU8 v = none := by
  obtain ⟨k, rfl⟩ : ∃ k, v = k + 10 := ⟨v - 10, by omega⟩
  rfl

/-! ### Code codec lemmas -/

lemma fromNumeral_eq_some (n : Nat) :
    ∃ c : Code, Code.fromNumeral n = some c ∧
      Digit.toU8 c.d0 = n / 100000 % 10 ∧ Digit.toU8 c.d1 = n / 10000 % 10 ∧
      Digit.toU8 c.d2 = n / 1000 % 10 ∧ Digit.toU8 c.d3 = n / 100 % 10 ∧
      Digit.toU8 c.d4 = n / 10 % 10 ∧ Digit.toU8 c.d5 = n / 1 % 10 := by
  obtain ⟨a0, ha0, hv0⟩ := Option.map_eq_some'.mp
    (Digit.map_toU8_tryFromU8 (n / 100000 % 10) (Nat.mod_lt _ (by omega)))
  obtain ⟨a1, ha1, hv1⟩ := Option.map_eq_some'.mp
    (Digit.map_toU8_tryFromU8 (n / 10000 % 10) (Nat.mod_lt _ (by omega)))
  obtain ⟨a2, ha2, hv2⟩ := Option.map_eq_some'.mp
    (Digit.map_toU8_tryFromU8 (n / 1000 % 10) (Nat.mod_lt _ (by omega)))
  obtain ⟨a3, ha3, hv3⟩ := Option.map_eq_some'.mp
    (Digit.map_toU8_tryFromU8 (n / 100 % 10) (Nat.mod_lt _ (by omega)))
  obtain ⟨a4, ha4, hv4⟩ := Option.map_eq_some'.mp
    (Digit.map_toU8_tryFromU8 (n / 10 % 10) (Nat.mod_lt _ (by omega)))
  obtain ⟨a5, ha5, hv5⟩ := Option.map_eq_some'.mp
    (Digit.map_toU8_tryFromU8 (n / 1 % 10) (Nat.mod_lt _ (by omega)))
  refine ⟨⟨a0, a1, a2, a3, a4, a5⟩, ?_, hv0, hv1, hv2, hv3, hv4, hv5⟩
  simp only [Nat.div_one] at ha5
  simp [Code.fromNumeral, ha0, ha1, ha2, ha3, ha4, ha5]

lemma ofNumeral_eq (n : Nat) {c : Code} (h : Code.fromNumeral n = some c) :
    Code.ofNumeral n = c := by
  simp [Code.ofNumeral, h]

lemma toNumeral_le (c : Code) : Code.toNumeral c ≤ 999999 := by
  have b0 := Digit.toU8_lt_ten c.d0
  have b1 := Digit.toU8_lt_ten c.d1
  have b2 := Digit.toU8_lt_ten c.d2
  have b3 := Digit.toU8_lt_ten c.d3
  have b4 := Digit.toU8_lt_ten c.d4
  have b5 := Digit.toU8_lt_ten c.d5
  unfold Code.toNumeral
  omega

lemma toNumeral_ofNumeral (n : Nat) (h : n ≤ 999999) :
    Code.toNumeral (Code.ofNumeral n) = n := by
  obtain ⟨c, hc, h0, h1, h2, h3, h4, h5⟩ := fromNumeral_eq_some n
  rw [ofNumeral_eq n hc]
  unfold Code.toNumeral
  rw [h0, h1, h2, h3, h4, h5]
  omega

lemma Code.ext_fields (a b : Code) (h0 : a.d0 = b.d0) (h1 : a.d1 = b.d1)
    (h2 : a.d2 = b.d2) (h3 : a.d3 = b.d3) (h4 : a.d4 = b.d4) (h5 : a.d5 = b.d5) : a = b := by
  have ha : a = ⟨a.d0, a.d1, a.d2, a.d3, a.d4, a.d5⟩ := rfl
  have hb : b = ⟨b.d0, b.d1, b.d2, b.d3, b.d4, b.d5⟩ := rfl
  rw [ha, hb, h0, h1, h2, h3, h4, h5]

lemma Code.ext_get (a b : Code) (h : ∀ i, a.get i = b.get i) : a = b :=
  Code.ext_fields a b (h 0) (h 1) (h 2) (h 3) (h 4) (h 5)

lemma ofNumeral_toNumeral (c : Code) : Code.ofNumeral (Code.toNumeral c) = c := by
  obtain ⟨c2, hc2, h0, h1, h2, h3, h4, h5⟩ := fromNumeral_eq_some (Code.toNumeral c)
  have b0 := Digit.toU8_lt_ten c.d0
  have b1 := Digit.toU8_lt_ten c.d1
  have b2 := Digit.toU8_lt_ten c.d2
  have b3 := Digit.toU8_lt_ten c.d3
  have b4 := Digit.toU8_lt_ten c.d4
  have b5 := Digit.toU8_lt_ten c.d5
  unfold Code.toNumeral at h0 h1 h2 h3 h4 h5
  rw [ofNumeral_eq _ hc2]
  refine Code.ext_fields _ _ (Digit.toU8_inj _ _ ?_) (Digit.toU8_inj _ _ ?_)
    (Digit.toU8_inj _ _ ?_) (Digit.toU8_inj _ _ ?_) (Digit.toU8_inj _ _ ?_)
    (Digit.toU8_inj _ _ ?_)
  · clear hc2 h1 h2 h3 h4 h5
    omega
  · clear hc2 h0 h2 h3 h4 h5
    omega
  · clear hc2 h0 h1 h3 h4 h5
    omega
  · clear hc2 h0 h1 h2 h4 h5
    omega
  · clear hc2 h0 h1 h2 h3 h5
    omega
  · clear hc2 h0 h1 h2 h3 h4
    omega

lemma mem_allCodes (c : Code) : c ∈ allCodes := by
  rw [allCodes, List.mem_map]
  exact ⟨Code.toNumeral c, List.mem_range.mpr (by have := toNumeral_le c; omega),
    ofNumeral_toNumeral c⟩

lemma allCodes_nodup : allCodes.Nodup := by
  rw [allCodes]
  refine List.Nodup.map_on ?_ (List.nodup_range _)
  intro x hx y hy hxy
  have hx6 := List.mem_range.mp hx
  have hy6 := List.mem_range.mp hy
  calc x = Code.toNumeral (Code.ofNumeral x) := (toNumeral_ofNumeral x (by omega)).symm
    _ = Code.toNumeral (Code.ofNumeral y) := by rw [hxy]
    _ = y := toNumeral_ofNumeral y (by omega)

lemma allCodes_length : allCodes.length = 1000000 := by
  simp [allCodes]

/-! ### Characterization of `check` as a pair of position counts -/

lemma foldl_pair_add {α : Type} (f g : α → Nat) (l : List α) (p : Nat × Nat) :
    l.foldl (fun q i => (q.1 + f i, q.2 + g i)) p = (p.1 + (l.map f).sum, p.2 + (l.map g).sum) := by
  induction l generalizing p with
  | nil => simp
  | cons x t ih => simp [ih, Nat.add_assoc, Nat.add_comm]

lemma sum_map_ite {α : Type} (P : α → Prop) [DecidablePred P] (l : List α) :
    (l.map fun a => if P a then 1 else 0).sum = (l.filter fun a => decide (P a)).length := by
  induction l with
  | nil => rfl
  | cons x t ih => by_cases h : P x <;> simp [h, ih, Nat.add_comm]

lemma intCond_iff (code guess : Code) (i : Fin 6) (h : guess.get i ≠ code.get i) :
    (((((List.finRange 6).filter fun j =>
          decide (guess.get i = code.get j ∧ guess.get j ≠ code.get j)).take 1).length : Int)
        - (((List.finRange 6).filter fun j =>
          decide (j < i ∧ guess.get j = guess.get i ∧ ∃ k, guess.get i = code.get k)).length : Int)
        > 0) ↔ missCondition code guess i := by
  rw [List.length_take]
  set F := ((List.finRange 6).filter fun j =>
    decide (guess.get i = code.get j ∧ guess.get j ≠ code.get j)).length with hF
  set R := ((List.finRange 6).filter fun j =>
    decide (j < i ∧ guess.get j = guess.get i ∧ ∃ k, guess.get i = code.get k)).length with hR
  have key : (((min 1 F : Nat) : Int) - (R : Int) > 0) ↔ 0 < F ∧ R = 0 := by omega
  rw [key]
  have hFpos : 0 < F ↔ ∃ j, guess.get i = code.get j ∧ guess.get j ≠ code.get j := by
    rw [hF, ← List.countP_eq_length_filter, List.countP_pos_iff]
    simp
  have hRzero : R = 0 ↔ ¬∃ j, j < i ∧ guess.get j = guess.get i ∧ ∃ k, guess.get i = code.get k := by
    rw [hR, ← List.countP_eq_length_filter, List.countP_eq_zero]
    simp
  rw [hFpos, hRzero]
  unfold missCondition
  tauto

lemma check_eq_counts (code guess : Code) :
    check code guess =
      (((List.finRange 6).filter fun i => decide (guess.get i = code.get i)).length,
       ((List.finRange 6).filter fun i => decide (missCondition code guess i)).length) := by
  unfold check
  rw [List.foldl_ext _
    (fun (p : Nat × Nat) (i : Fin 6) =>
      (p.1 + (if guess.get i = code.get i then 1 else 0),
       p.2 + (if missCondition code guess i then 1 else 0))) (0, 0) ?_]
  · rw [foldl_pair_add, sum_map_ite, sum_map_ite]
    simp
  · intro p i hi
    show _ = (p.1 + (if guess.get i = code.get i then 1 else 0),
      p.2 + (if missCondition code guess i then 1 else 0))
    by_cases h1 : guess.get i = code.get i
    · have h2 : ¬ missCondition code guess i := fun hm => hm.1 h1
      rw [if_pos h1, if_pos h1, if_neg h2]
      rfl
    · have h3 := intCond_iff code guess i h1
      rw [if_neg h1, if_neg h1]
      by_cases h2 : missCondition code guess i
      · rw [if_pos (h3.mpr h2), if_pos h2]
        rfl
      · rw [if_neg (fun hc => h2 (h3.mp hc)), if_neg h2]
        rfl

/-! ### Consequences of the characterization -/

lemma check_self (c : Code) : check c c = (6, 0) := by
  rw [check_eq_counts]
  simp [missCondition]

lemma check_eq_six_iff (code guess : Code) : check code guess = (6, 0) ↔ guess = code := by
  constructor
  · intro h
    rw [check_eq_counts, Prod.ext_iff] at h
    refine Code.ext_get _ _ fun i => ?_
    have hlen : ((List.finRange 6).filter fun i =>
        decide (guess.get i = code.get i)).length = (List.finRange 6).length := by
      rw [List.length_finRange]
      exact h.1
    rw [← List.countP_eq_length_filter, List.countP_eq_length] at hlen
    simpa using hlen i (List.mem_finRange i)
  · intro h
    subst h
    exact check_self guess

/-! ### Properties of one elimination round -/

lemma mem_filterRound {guesses : List Code} {guess x : Code} {resp : Nat × Nat} :
    x ∈ filterRound guesses guess resp ↔ x ∈ guesses ∧ check x guess = resp := by
  simp [filterRound, List.mem_filter]

lemma exists_mem_ne {l : List Code} (hnd : l.Nodup) (hlen : 2 ≤ l.length) (a : Code) :
    ∃ b ∈ l, b ≠ a := by
  rcases l with _ | ⟨x, _ | ⟨y, t⟩⟩
  · simp at hlen
  · simp at hlen
  · obtain ⟨hxnot, _⟩ := List.nodup_cons.mp hnd
    by_cases hx : x = a
    · refine ⟨y, by simp, fun he => ?_⟩
      subst hx
      exact hxnot (by rw [← he]; exact List.mem_cons_self _ _)
    · exact ⟨x, by simp, hx⟩

lemma filterRound_length_lt {guesses : List Code} {guess : Code} (resp : Nat × Nat)
    (hnd : guesses.Nodup) (hlen : 2 ≤ guesses.length) (hmem : guess ∈ guesses) :
    (filterRound guesses guess resp).length < guesses.length := by
  have hex : ∃ x ∈ guesses, ¬ check x guess = resp := by
    by_cases hresp : resp = (6, 0)
    · obtain ⟨b, hb, hbne⟩ := exists_mem_ne hnd hlen guess
      refine ⟨b, hb, fun hc => hbne ?_⟩
      have := (check_eq_six_iff b guess).mp (by rw [hc, hresp])
      exact this.symm ▸ rfl
    · refine ⟨guess, hmem, fun hc => hresp ?_⟩
      rw [← hc]
      exact (check_eq_six_iff guess guess).mpr rfl
  unfold filterRound
  rw [List.length_filter_lt_length_iff_exists]
  obtain ⟨x, hx, hnx⟩ := hex
  exact ⟨x, hx, by simpa using hnx⟩

/-! ### The elimination loop -/

lemma breakCodeLoop_truthful (s : Code)
    (select : List Code → List (Code × (Nat × Nat)) → Code)
    (hsel : ∀ gs pv, gs ≠ [] → select gs pv ∈ gs) :
    ∀ fuel (guesses : List Code) (prev : List (Code × (Nat × Nat))),
      guesses.length < fuel → guesses.Nodup → s ∈ guesses →
      (prev = [] → Code.ofNumeral 111222 ∈ guesses) →
      breakCodeLoop (fun g => check s g) select fuel guesses prev = some [s] := by
  intro fuel
  induction fuel with
  | zero =>
    intro guesses prev hf
    omega
  | succ fuel ih =>
    intro guesses prev hf hnd hs h111
    rw [breakCodeLoop]
    by_cases hlen : guesses.length ≤ 1
    · rw [if_pos hlen]
      have h1 : guesses.length = 1 := by
        have : 0 < guesses.length := List.length_pos.mpr (List.ne_nil_of_mem hs)
        omega
      obtain ⟨a, ha⟩ := List.length_eq_one.mp h1
      subst ha
      have : s = a := by simpa using hs
      subst this
      rfl
    · rw [if_neg hlen]
      have hmem : (if prev.isEmpty then Code.ofNumeral 111222 else select guesses prev)
          ∈ guesses := by
        cases prev with
        | nil => simpa using h111 rfl
        | cons p ps =>
          simp only [List.isEmpty_cons, Bool.false_eq_true, if_false]
          exact hsel _ _ (by
            intro h0
            rw [h0] at hlen
            simp at hlen)
      set guess := (if prev.isEmpty then Code.ofNumeral 111222 else select guesses prev)
        with hguess
      show breakCodeLoop _ _ fuel (filterRound guesses guess (check s guess))
        ((guess, check s guess) :: prev) = some [s]
      apply ih
      · have := filterRound_length_lt (check s guess) hnd (by omega) hmem
        omega
      · exact List.Nodup.filter _ hnd
      · exact mem_filterRound.mpr ⟨hs, rfl⟩
      · intro habs
        cases habs

lemma breakCodeLoop_total (good : Code → Nat × Nat)
    (select : List Code → List (Code × (Nat × Nat)) → Code)
    (hsel : ∀ gs pv, gs ≠ [] → select gs pv ∈ gs) :
    ∀ fuel (guesses : List Code) (prev : List (Code × (Nat × Nat))),
      guesses.length < fuel → guesses.Nodup →
      (prev = [] → Code.ofNumeral 111222 ∈ guesses) →
      ∃ F, breakCodeLoop good select fuel guesses prev = some F ∧
        F.length ≤ 1 ∧ ∀ c ∈ F, c ∈ guesses := by
  intro fuel
  induction fuel with
  | zero =>
    intro guesses prev hf
    omega
  | succ fuel ih =>
    intro guesses prev hf hnd h111
    rw [breakCodeLoop]
    by_cases hlen : guesses.length ≤ 1
    · rw [if_pos hlen]
      exact ⟨guesses, rfl, hlen, fun c hc => hc⟩
    · rw [if_neg hlen]
      have hmem : (if prev.isEmpty then Code.ofNumeral 111222 else select guesses prev)
          ∈ guesses := by
        cases prev with
        | nil => simpa using h111 rfl
        | cons p ps =>
          simp only [List.isEmpty_cons, Bool.false_eq_true, if_false]
          exact hsel _ _ (by
            intro h0
            rw [h0] at hlen
            simp at hlen)
      set guess := (if prev.isEmpty then Code.ofNumeral 111222 else select guesses prev)
        with hguess
      show ∃ F, breakCodeLoop _ _ fuel (filterRound guesses guess (good guess))
        ((guess, good guess) :: prev) = some F ∧ F.length ≤ 1 ∧ ∀ c ∈ F, c ∈ guesses
      have hlt := filterRound_length_lt (good guess) hnd (by omega) hmem
      obtain ⟨F, hF, hF1, hFsub⟩ := ih (filterRound guesses guess (good guess))
        ((guess, good guess) :: prev) (by omega) (List.Nodup.filter _ hnd)
        (by intro habs; cases habs)
      exact ⟨F, hF, hF1, fun c hc => (mem_filterRound.mp (hFsub c hc)).1⟩

/-! ### Symmetry on duplicate-free codes -/

lemma card_filter_univ (P : Fin 6 → Prop) [DecidablePred P] :
    (Finset.univ.filter P).card =
      ((List.finRange 6).filter fun i => decide (P i)).length := by
  rw [Finset.card_filter, Fin.sum_univ_def, sum_map_ite]

lemma missCondition_iff_of_distinct (code guess : Code) (hg : guess.distinct) (i : Fin 6) :
    missCondition code guess i ↔
      (guess.get i ≠ code.get i ∧
        ∃ j, guess.get i = code.get j ∧ guess.get j ≠ code.get j) := by
  unfold missCondition
  constructor
  · rintro ⟨h1, h2, _⟩
    exact ⟨h1, h2⟩
  · rintro ⟨h1, h2⟩
    refine ⟨h1, h2, ?_⟩
    rintro ⟨j, hji, hjeq, _⟩
    exact absurd (hg j i hjeq) (ne_of_lt hji)

lemma missSet_card_le (σ τ : Fin 6 → Digit) (hτ : ∀ i j, τ i = τ j → i = j) :
    (missSet σ τ).card ≤ (missSet τ σ).card := by
  refine Finset.card_le_card_of_injOn
    (fun i => if h : ∃ j, τ i = σ j ∧ τ j ≠ σ j then h.choose else i) ?_ ?_
  · intro i hi
    rw [missSet, Finset.mem_filter] at hi
    obtain ⟨-, h1, h2⟩ := hi
    show (if h : ∃ j, τ i = σ j ∧ τ j ≠ σ j then h.choose else i) ∈ missSet τ σ
    rw [dif_pos h2]
    have hspec := h2.choose_spec
    rw [missSet, Finset.mem_filter]
    exact ⟨Finset.mem_univ _, Ne.symm hspec.2, i, hspec.1.symm, Ne.symm h1⟩
  · intro i1 hi1 i2 hi2 heq
    rw [Finset.mem_coe, missSet, Finset.mem_filter] at hi1 hi2
    obtain ⟨-, h11, h12⟩ := hi1
    obtain ⟨-, h21, h22⟩ := hi2
    simp only [dif_pos h12, dif_pos h22] at heq
    have hs1 := h12.choose_spec
    have hs2 := h22.choose_spec
    apply hτ
    rw [hs1.1, hs2.1, heq]

lemma missCondition_iff_missCredit (code guess : Code) (i : Fin 6) :
    missCondition code guess i ↔ missCredit code guess i := by
  unfold missCondition missCredit
  constructor
  · rintro ⟨h1, h2, h3⟩
    refine ⟨h1, h2, fun j hj heq => h3 ⟨j, hj, heq, ?_⟩⟩
    obtain ⟨j2, hj2, -⟩ := h2
    exact ⟨j2, hj2⟩
  · rintro ⟨h1, h2, h3⟩
    refine ⟨h1, h2, ?_⟩
    rintro ⟨j, hj, heq, -⟩
    exact h3 j hj heq

lemma miss_length_eq_missSet_card (code guess : Code) (hg : guess.distinct) :
    ((List.finRange 6).filter fun i => decide (missCondition code guess i)).length
      = (missSet code.get guess.get).card := by
  rw [← card_filter_univ]
  congr 1
  apply Finset.filter_congr
  intro i _
  rw [missCondition_iff_of_distinct code guess hg i]

/-! ### Further helper lemmas used by the main theorems -/

lemma fromNumeral_isSome_mod (n : Nat) :
    (Code.fromNumeral n).isSome ∧ Code.ofNumeral n = Code.ofNumeral (n % 1000000) := by
  have e0 : n / 100000 % 10 = n % 1000000 / 100000 % 10 := by omega
  have e1 : n / 10000 % 10 = n % 1000000 / 10000 % 10 := by omega
  have e2 : n / 1000 % 10 = n % 1000000 / 1000 % 10 := by omega
  have e3 : n / 100 % 10 = n % 1000000 / 100 % 10 := by omega
  have e4 : n / 10 % 10 = n % 1000000 / 10 % 10 := by omega
  have e5 : n / 1 % 10 = n % 1000000 / 1 % 10 := by omega
  obtain ⟨c, hc, h0, h1, h2, h3, h4, h5⟩ := fromNumeral_eq_some n
  obtain ⟨c2, hc2, g0, g1, g2, g3, g4, g5⟩ := fromNumeral_eq_some (n % 1000000)
  refine ⟨by rw [hc]; rfl, ?_⟩
  rw [ofNumeral_eq _ hc, ofNumeral_eq _ hc2]
  refine Code.ext_fields _ _ (Digit.toU8_inj _ _ ?_) (Digit.toU8_inj _ _ ?_)
    (Digit.toU8_inj _ _ ?_) (Digit.toU8_inj _ _ ?_) (Digit.toU8_inj _ _ ?_)
    (Digit.toU8_inj _ _ ?_)
  · rw [h0, g0]
    exact e0
  · rw [h1, g1]
    exact e1
  · rw [h2, g2]
    exact e2
  · rw [h3, g3]
    exact e3
  · rw [h4, g4]
    exact e4
  · rw [h5, g5]
    exact e5

lemma headD_mem (gs : List Code) (hne : gs ≠ []) : gs.headD (Code.ofNumeral 0) ∈ gs := by
  cases gs with
  | nil => exact absurd rfl hne
  | cons x t => exact List.mem_cons_self x t

/-! ### Claim theorems -/

/-- C1 (counterexample): with secret 220000 and guess 992200 the secret has two
unmatched occurrences of digit 2 and the guess presents two non-exact
occurrences of it, yet `check` credits only one miss, giving (2, 1), while the
spec's scoring rule (`checkSpec`) credits both and gives (2, 2).  So `check`
does not implement the spec's duplicate-aware scoring. -/
theorem check_deviates_from_spec_scoring :
    check (Code.ofNumeral 220000) (Code.ofNumeral 992200) = (2, 1) ∧
    checkSpec (Code.ofNumeral 220000) (Code.ofNumeral 992200) = (2, 2) ∧
    check (Code.ofNumeral 220000) (Code.ofNumeral 992200) ≠
      checkSpec (Code.ofNumeral 220000) (Code.ofNumeral 992200) := by
  refine ⟨by decide, by decide, by decide⟩

/-- C1 (amended): `check` scores a good for every exact position match, and
credits a miss at a non-exact position `i` with guessed digit `d` exactly when
`d` occurs in the secret at some position where the guess differs from the
secret and no earlier guess position holds the digit value `d`; in particular
at most one miss is credited per distinct digit value of the guess. -/
theorem check_characterization (code guess : Code) :
    check code guess =
      (((List.finRange 6).filter fun i => decide (guess.get i = code.get i)).length,
       ((List.finRange 6).filter fun i => decide (missCredit code guess i)).length) := by
  rw [check_eq_counts]
  simp only [Prod.mk.injEq]
  refine ⟨trivial, ?_⟩
  congr 1
  apply List.filter_congr
  intro x _
  exact decide_eq_decide.mpr (missCondition_iff_missCredit code guess x)

/-- C2: driven by a truthful oracle answering `check(s, guess)` for a fixed
secret `s`, `break_code` terminates and returns exactly `Some s`, for every
secret `s` (hence in particular for 123456, 111111 and the leading-zero code
081220) and every selection strategy that picks one of the remaining
candidates (the randomized minimax sampler of the source does). -/
theorem break_code_finds_secret (s : Code)
    (select : List Code → List (Code × (Nat × Nat)) → Code)
    (hsel : ∀ gs pv, gs ≠ [] → select gs pv ∈ gs) :
    breakCode (fun g => check s g) select = some s := by
  unfold breakCode
  rw [breakCodeLoop_truthful s select hsel 1000001 allCodes []
    (by rw [allCodes_length]; omega) allCodes_nodup (mem_allCodes s)
    (fun _ => mem_allCodes _)]
  rfl

/-- Witness for C2 at the leading-zero secret 081220 with a head-picking
selection strategy. -/
theorem break_code_finds_secret_witness :
    breakCode (fun g => check (Code.ofNumeral 81220) g)
      (fun gs _ => gs.headD (Code.ofNumeral 0)) = some (Code.ofNumeral 81220) :=
  break_code_finds_secret (Code.ofNumeral 81220) _ (fun gs _ hne => headD_mem gs hne)

/-- C3: converting a numeral in [0, 999999] to a code and back is the
identity, converting any code to its numeral and back is the identity, and
every code's numeral lies in [0, 999999]: the conversion is a total bijection
over that range, first array slot most significant. -/
theorem numeral_code_roundtrip :
    (∀ n : Nat, n ≤ 999999 → Code.toNumeral (Code.ofNumeral n) = n) ∧
    (∀ c : Code, Code.ofNumeral (Code.toNumeral c) = c) ∧
    (∀ c : Code, Code.toNumeral c ≤ 999999) :=
  ⟨toNumeral_ofNumeral, ofNumeral_toNumeral, toNumeral_le⟩

/-- Witness for C3 at numeral 123406. -/
theorem numeral_code_roundtrip_witness :
    (123406 : Nat) ≤ 999999 ∧ Code.toNumeral (Code.ofNumeral 123406) = 123406 :=
  ⟨by decide, numeral_code_roundtrip.1 123406 (by decide)⟩

/-- C4 (counterexample): decoding does NOT fail for the out-of-range numeral
1000000: every digit division is taken modulo 10, so the conversion succeeds
and silently wraps to the code of 0. -/
theorem numeral_decode_accepts_out_of_range :
    Code.fromNumeral 1000000 = some (Code.ofNumeral 0) ∧
    Code.ofNumeral 1000000 = Code.ofNumeral 0 := by
  refine ⟨by decide, by decide⟩

/-- C4 (amended): for every numeral above 999999 the conversion to a code
succeeds (never reports a failure) and silently wraps, producing the code of
the numeral reduced modulo 1000000. -/
theorem numeral_decode_wraps_above_range (n : Nat) (hn : 999999 < n) :
    (Code.fromNumeral n).isSome ∧ Code.ofNumeral n = Code.ofNumeral (n % 1000000) :=
  fromNumeral_isSome_mod n

/-- Witness for the amended C4 at n = 1000000. -/
theorem numeral_decode_wraps_above_range_witness :
    (999999 : Nat) < 1000000 ∧ ((Code.fromNumeral 1000000).isSome ∧
      Code.ofNumeral 1000000 = Code.ofNumeral (1000000 % 1000000)) :=
  ⟨by decide, numeral_decode_wraps_above_range 1000000 (by decide)⟩

/-- C5: one filtering round of `break_code` with a truthful response
`check(s, guess)` keeps the secret `s` in the candidate set, and for any
response the filtered candidate set is never longer than before. -/
theorem candidate_set_invariant (s guess : Code) (guesses : List Code)
    (hs : s ∈ guesses) :
    s ∈ filterRound guesses guess (check s guess) ∧
    ∀ resp : Nat × Nat, (filterRound guesses guess resp).length ≤ guesses.length :=
  ⟨mem_filterRound.mpr ⟨hs, rfl⟩, fun _ => List.length_filter_le _ _⟩

/-- Witness for C5 on a two-element candidate set. -/
theorem candidate_set_invariant_witness :
    Code.ofNumeral 0 ∈ filterRound [Code.ofNumeral 0, Code.ofNumeral 1]
      (Code.ofNumeral 2) (check (Code.ofNumeral 0) (Code.ofNumeral 2)) ∧
    (filterRound [Code.ofNumeral 0, Code.ofNumeral 1] (Code.ofNumeral 2)
      (6, 0)).length ≤ 2 :=
  ⟨(candidate_set_invariant (Code.ofNumeral 0) (Code.ofNumeral 2) _ (by decide)).1,
   (candidate_set_invariant (Code.ofNumeral 0) (Code.ofNumeral 2) _ (by decide)).2 (6, 0)⟩

/-- C6: when both codes consist of six pairwise-distinct digits, `check` is
symmetric in its two arguments. -/
theorem check_symm_of_distinct (a b : Code) (ha : a.distinct) (hb : b.distinct) :
    check a b = check b a := by
  rw [check_eq_counts, check_eq_counts]
  simp only [Prod.mk.injEq]
  constructor
  · congr 1
    apply List.filter_congr
    intro x _
    exact decide_eq_decide.mpr eq_comm
  · rw [miss_length_eq_missSet_card a b hb, miss_length_eq_missSet_card b a ha]
    exact le_antisymm (missSet_card_le _ _ hb) (missSet_card_le _ _ ha)

/-- Witness for C6 on the duplicate-free pair 123456 and 987650. -/
theorem check_symm_of_distinct_witness :
    Code.distinct (Code.ofNumeral 123456) ∧ Code.distinct (Code.ofNumeral 987650) ∧
    check (Code.ofNumeral 123456) (Code.ofNumeral 987650) =
      check (Code.ofNumeral 987650) (Code.ofNumeral 123456) :=
  ⟨by decide, by decide, check_symm_of_distinct _ _ (by decide) (by decide)⟩

/-- C7: the digit/value conversions are mutual inverses over 0–9, and
converting a value outside 0–9 to a digit fails. -/
theorem digit_codec_inverses :
    (∀ d : Digit, Digit.tryFromU8 (Digit.toU8 d) = some d) ∧
    (∀ v : Nat, v ≤ 9 → Option.map Digit.toU8 (Digit.tryFromU8 v) = some v) ∧
    (∀ v : Nat, 9 < v → Digit.tryFromU8 v = none) :=
  ⟨Digit.tryFromU8_toU8, fun v hv => Digit.map_toU8_tryFromU8 v (by omega),
   fun v hv => Digit.tryFromU8_eq_none v hv⟩

/-- Witness for C7 at digit Three, value 7 and out-of-range value 12. -/
theorem digit_codec_inverses_witness :
    Digit.tryFromU8 (Digit.toU8 Digit.Three) = some Digit.Three ∧
    Option.map Digit.toU8 (Digit.tryFromU8 7) = some 7 ∧
    Digit.tryFromU8 12 = none :=
  ⟨digit_codec_inverses.1 Digit.Three, digit_codec_inverses.2.1 7 (by decide),
   digit_codec_inverses.2.2 12 (by decide)⟩

/-- C8: for every oracle (truthful or not) and every candidate-picking
selection strategy, the elimination loop reaches a final candidate set of at
most one element, `break_code` returns its head, and in particular it returns
the no-solution outcome `none` (a normal value, not a crash) when the set was
emptied by contradictory feedback, and the single surviving candidate
otherwise. -/
theorem break_code_no_solution_or_survivor (good : Code → Nat × Nat)
    (select : List Code → List (Code × (Nat × Nat)) → Code)
    (hsel : ∀ gs pv, gs ≠ [] → select gs pv ∈ gs) :
    ∃ F : List Code, breakCodeLoop good select 1000001 allCodes [] = some F ∧
      F.length ≤ 1 ∧ breakCode good select = F.head? ∧
      (F = [] → breakCode good select = none) ∧
      (∀ c, F = [c] → breakCode good select = some c) := by
  obtain ⟨F, hF, hF1, -⟩ := breakCodeLoop_total good select hsel 1000001 allCodes []
    (by rw [allCodes_length]; omega) allCodes_nodup (fun _ => mem_allCodes _)
  refine ⟨F, hF, hF1, ?_, ?_, ?_⟩
  · unfold breakCode
    rw [hF]
    rfl
  · intro hFe
    unfold breakCode
    rw [hF, hFe]
    rfl
  · intro c hFc
    unfold breakCode
    rw [hF, hFc]
    rfl

/-- Witness for C8 with a constant (untruthful) oracle and a head-picking
selection strategy. -/
theorem break_code_no_solution_or_survivor_witness :
    ∃ F : List Code, breakCodeLoop (fun _ => (0, 0))
        (fun gs _ => gs.headD (Code.ofNumeral 0)) 1000001 allCodes [] = some F ∧
      F.length ≤ 1 ∧
      breakCode (fun _ => (0, 0)) (fun gs _ => gs.headD (Code.ofNumeral 0)) = F.head? ∧
      (F = [] → breakCode (fun _ => (0, 0))
        (fun gs _ => gs.headD (Code.ofNumeral 0)) = none) ∧
      (∀ c, F = [c] → breakCode (fun _ => (0, 0))
        (fun gs _ => gs.headD (Code.ofNumeral 0)) = some c) :=
  break_code_no_solution_or_survivor _ _ (fun gs _ hne => headD_mem gs hne)

/-- C9: `Code::from(u32)` is total: for every numeral it succeeds, and it
returns the same code as for the numeral reduced modulo 1000000 (so
`Code::from(1000000)` equals `Code::from(0)`). -/
theorem code_fromNumeral_total_wraps (n : Nat) :
    (Code.fromNumeral n).isSome ∧ Code.ofNumeral n = Code.ofNumeral (n % 1000000) :=
  fromNumeral_isSome_mod n

/-- C10: a non-exact guess position earns a miss only if the guessed digit
occurs in the secret at a position where the guess differs from the secret and
no earlier guess position holds the same digit value; consequently the miss
count of `check` never exceeds the number of distinct digit values in the
guess. -/
theorem check_at_most_one_miss_per_value (code guess : Code) :
    (∀ i : Fin 6, missCondition code guess i →
      ((∃ j, guess.get i = code.get j ∧ guess.get j ≠ code.get j) ∧
        ∀ j, j < i → guess.get j ≠ guess.get i)) ∧
    (check code guess).2 ≤ Code.distinctValueCount guess := by
  constructor
  · intro i hi
    have h := (missCondition_iff_missCredit code guess i).mp hi
    exact ⟨h.2.1, h.2.2⟩
  · rw [check_eq_counts]
    show ((List.finRange 6).filter fun i => decide (missCondition code guess i)).length ≤ _
    rw [← card_filter_univ]
    unfold Code.distinctValueCount
    refine Finset.card_le_card_of_injOn guess.get
      (fun i _ => Finset.mem_image_of_mem _ (Finset.mem_univ i)) ?_
    intro i1 hi1 i2 hi2 heq
    rw [Finset.mem_coe, Finset.mem_filter] at hi1 hi2
    by_contra hne
    rcases lt_trichotomy i1 i2 with hlt | heqq | hgt
    · exact ((missCondition_iff_missCredit code guess i2).mp hi2.2).2.2 i1 hlt heq
    · exact hne heqq
    · exact ((missCondition_iff_missCredit code guess i1).mp hi1.2).2.2 i2 hgt heq.symm

/-- Witness for C10: secret 123456, guess 654321, position 0 is credited a
miss and satisfies the stated conditions. -/
theorem check_at_most_one_miss_per_value_witness :
    ((∃ j, (Code.ofNumeral 654321).get 0 = (Code.ofNumeral 123456).get j ∧
        (Code.ofNumeral 654321).get j ≠ (Code.ofNumeral 123456).get j) ∧
      ∀ j, j < (0 : Fin 6) →
        (Code.ofNumeral 654321).get j ≠ (Code.ofNumeral 654321).get 0) ∧
    (check (Code.ofNumeral 123456) (Code.ofNumeral 654321)).2 ≤
      Code.distinctValueCount (Code.ofNumeral 654321) :=
  ⟨(check_at_most_one_miss_per_value (Code.ofNumeral 123456)
      (Code.ofNumeral 654321)).1 0 (by decide),
   (check_at_most_one_miss_per_value (Code.ofNumeral 123456)
      (Code.ofNumeral 654321)).2⟩
